import Mathlib

/-!
Verification of the batching / dispatch / throughput-accounting core of the
wikipedia embedding benchmark (`applications/wikipedia/main.py`).

Texts are modelled as `List Char` (Python strings index by code point), Python
floats as exact rationals `ℚ`, Python `int(...)` as truncation toward zero, and
runtime exceptions (`ZeroDivisionError`, out-of-range dataset selection) as an
explicit `PyError` in an `Except` result.
-/

namespace Wikipedia

/-- Module-level constant `N_GPU = 6` from `main.py`. -/
def N_GPU : Nat := 6

/-- Module-level constant `BATCH_SIZE = 128` from `main.py`. -/
def BATCH_SIZE : Nat := 128

/-- Hard-coded corpus character count `dataset_chars = 19560538957` in
`embed_dataset`. -/
def dataset_chars : Nat := 19560538957

/-- Floor of a rational, written so the kernel can evaluate it (`Int./` is
Euclidean division, which is floor division for the positive denominator);
`ratFloor_eq_floor` identifies it with `⌊q⌋`. -/
def ratFloor (q : ℚ) : ℤ := q.num / q.den

/-- Python `int(q)` on a real value: truncation toward zero. -/
def pyInt (q : ℚ) : ℤ := if 0 ≤ q then ratFloor q else -ratFloor (-q)

/-- Runtime errors that the modelled `embed_dataset` run can raise. -/
inductive PyError where
  | zeroDivision
  | indexError
  deriving DecidableEq, Repr

/-- Python division `a / b`, raising `ZeroDivisionError` when `b = 0`
(rational division in Lean would silently return 0 there). -/
def pyDiv (a b : ℚ) : Except PyError ℚ :=
  if b = 0 then .error .zeroDivision else .ok (a / b)

/-! ## Chunker

`generate_chunks_from_dataset` slices each record's `text` field left to right:

    for chunk_start in range(0, len(text), chunk_size):
        yield text[chunk_start : chunk_start + chunk_size]

`chunk_text` models the inner loop for one record; `range` with step
`chunk_size ≥ 1` starting at 0 visits exactly the prefixes dropped here.
(Python raises `ValueError` for step 0; all claims assume `chunk_size > 0`.) -/

/-- Chunks of one record's text, as produced by the inner loop of
`generate_chunks_from_dataset`. -/
def chunk_text (text : List Char) (chunk_size : Nat) : List (List Char) :=
  if _h : text = [] ∨ chunk_size = 0 then []
  else text.take chunk_size :: chunk_text (text.drop chunk_size) chunk_size
termination_by text.length
decreasing_by
  simp only [not_or] at _h
  have h1 : 0 < text.length := List.length_pos.mpr _h.1
  have h2 : 0 < chunk_size := Nat.pos_of_ne_zero _h.2
  simp only [List.length_drop]
  omega

/-- Model of `generate_chunks_from_dataset(xs, chunk_size=400)`: records in
source order, chunks of each record in left-to-right order. -/
def generate_chunks_from_dataset (xs : List (List Char)) (chunk_size : Nat := 400) :
    List (List Char) :=
  xs.flatMap (fun text => chunk_text text chunk_size)

/-! ## Batcher

`generate_batches` accumulates into `batch`, yielding whenever the accumulator
reaches `batch_size`, and finally yields a non-empty remainder:

    def generate_batches(xs, batch_size=50):
        batch = []
        for x in xs:
            batch.append(x)
            if len(batch) == batch_size:
                yield batch
                batch = []
        if batch:
            yield batch
-/

/-- Loop body of `generate_batches`: `batch` is the current accumulator. -/
def generate_batches_go (batch_size : Nat) (batch : List α) : List α → List (List α)
  | [] => if batch.isEmpty then [] else [batch]
  | x :: rest =>
    if (batch ++ [x]).length = batch_size then
      (batch ++ [x]) :: generate_batches_go batch_size [] rest
    else generate_batches_go batch_size (batch ++ [x]) rest

/-- Model of `generate_batches(xs, batch_size=50)`; note the source's default
is 50 (the call site passes `BATCH_SIZE = 128` explicitly). -/
def generate_batches (xs : List α) (batch_size : Nat := 50) : List (List α) :=
  generate_batches_go batch_size [] xs

/-! ### Chunker lemmas -/

theorem chunk_text_nil (k : Nat) : chunk_text [] k = [] := by
  rw [chunk_text]; simp

theorem chunk_text_zero (t : List Char) : chunk_text t 0 = [] := by
  rw [chunk_text]; simp

theorem chunk_text_cons (t : List Char) (k : Nat) (ht : t ≠ []) (hk : k ≠ 0) :
    chunk_text t k = t.take k :: chunk_text (t.drop k) k := by
  rw [chunk_text]
  simp [ht, hk]

/-- Concatenating the chunks of a record reproduces its text. -/
theorem chunk_text_flatten (t : List Char) (k : Nat) (hk : k ≠ 0) :
    (chunk_text t k).flatten = t := by
  induction t, k using chunk_text.induct with
  | case1 t k h =>
    rcases h with h | h
    · subst h; rw [chunk_text_nil]; rfl
    · exact absurd h hk
  | case2 t k h ih =>
    simp only [not_or] at h
    rw [chunk_text_cons t k h.1 h.2, List.flatten_cons, ih hk,
      List.take_append_drop]

/-- Every chunk has length at most `chunk_size`. -/
theorem chunk_text_le (t : List Char) (k : Nat) :
    ∀ c ∈ chunk_text t k, c.length ≤ k := by
  induction t, k using chunk_text.induct with
  | case1 t k h =>
    rcases h with h | h
    · subst h; rw [chunk_text_nil]; simp
    · subst h; rw [chunk_text_zero]; simp
  | case2 t k h ih =>
    simp only [not_or] at h
    rw [chunk_text_cons t k h.1 h.2]
    intro c hc
    rcases List.mem_cons.mp hc with rfl | hc
    · simp [List.length_take]
    · exact ih c hc

/-- Every chunk except possibly the last has length exactly `chunk_size`. -/
theorem chunk_text_full (t : List Char) (k : Nat) :
    ∀ c ∈ (chunk_text t k).dropLast, c.length = k := by
  induction t, k using chunk_text.induct with
  | case1 t k h =>
    rcases h with h | h
    · subst h; rw [chunk_text_nil]; simp
    · subst h; rw [chunk_text_zero]; simp
  | case2 t k h ih =>
    simp only [not_or] at h
    rw [chunk_text_cons t k h.1 h.2]
    by_cases hrest : chunk_text (t.drop k) k = []
    · rw [hrest]; simp
    · intro c hc
      rw [List.dropLast_cons_of_ne_nil hrest] at hc
      rcases List.mem_cons.mp hc with rfl | hc
      · -- the tail is non-empty, so `t.drop k ≠ []`, hence `k ≤ t.length`
        have hdrop : t.drop k ≠ [] := by
          intro hd
          rw [hd, chunk_text_nil] at hrest
          exact hrest rfl
        have hle : k ≤ t.length := by
          by_contra hlt
          exact hdrop (List.drop_eq_nil_of_le (le_of_not_le hlt))
        simp [List.length_take]
        omega
      · exact ih c hc

/-- Every chunk of a non-empty record is non-empty. -/
theorem chunk_text_ne_nil (t : List Char) (k : Nat) :
    ∀ c ∈ chunk_text t k, c ≠ [] := by
  induction t, k using chunk_text.induct with
  | case1 t k h =>
    rcases h with h | h
    · subst h; rw [chunk_text_nil]; simp
    · subst h; rw [chunk_text_zero]; simp
  | case2 t k h ih =>
    simp only [not_or] at h
    rw [chunk_text_cons t k h.1 h.2]
    intro c hc
    rcases List.mem_cons.mp hc with rfl | hc
    · have h1 : 0 < t.length := List.length_pos.mpr h.1
      have h2 : 0 < k := Nat.pos_of_ne_zero h.2
      intro hnil
      have := congrArg List.length hnil
      simp only [List.length_take, List.length_nil] at this
      omega
    · exact ih c hc

/-- Number of chunks is `⌈len / k⌉ = (len + k - 1) / k`. -/
theorem chunk_text_count (t : List Char) (k : Nat) (hk : k ≠ 0) :
    (chunk_text t k).length = (t.length + k - 1) / k := by
  induction t, k using chunk_text.induct with
  | case1 t k h =>
    rcases h with h | h
    · subst h
      rw [chunk_text_nil]
      have h2 : 0 < k := Nat.pos_of_ne_zero hk
      simp only [List.length_nil]
      rw [Nat.div_eq_of_lt (by omega)]
    · exact absurd h hk
  | case2 t k h ih =>
    simp only [not_or] at h
    rw [chunk_text_cons t k h.1 h.2]
    have h1 : 0 < t.length := List.length_pos.mpr h.1
    have h2 : 0 < k := Nat.pos_of_ne_zero h.2
    simp only [List.length_cons, ih hk, List.length_drop]
    rcases Nat.le_total t.length k with hle | hle
    · rw [Nat.sub_eq_zero_of_le hle]
      rw [Nat.div_eq_of_lt (by omega)]
      rw [Nat.div_eq_sub_div h2 (by omega), Nat.div_eq_of_lt (by omega)]
    · have heq : t.length + k - 1 = (t.length - k + k - 1) + k := by omega
      rw [heq, Nat.add_div_right _ h2]

/-! ### Batcher lemmas -/

/-- Flattening the emitted batches recovers the accumulator followed by the
remaining input, for any accumulator state. -/
theorem generate_batches_go_flatten (k : Nat) (xs : List α) :
    ∀ acc, (generate_batches_go k acc xs).flatten = acc ++ xs := by
  induction xs with
  | nil =>
    intro acc
    simp only [generate_batches_go]
    by_cases h : acc.isEmpty
    · rw [if_pos h, List.isEmpty_iff.mp h]; rfl
    · rw [if_neg h]; simp
  | cons x rest ih =>
    intro acc
    simp only [generate_batches_go]
    by_cases h : (acc ++ [x]).length = k
    · rw [if_pos h, List.flatten_cons, ih []]
      simp
    · rw [if_neg h, ih (acc ++ [x])]
      simp

/-- Every emitted batch except possibly the last has length exactly
`batch_size`, provided the accumulator is still below `batch_size`. -/
theorem generate_batches_go_dropLast (k : Nat) (xs : List α) :
    ∀ acc, acc.length < k →
      ∀ b ∈ (generate_batches_go k acc xs).dropLast, b.length = k := by
  induction xs with
  | nil =>
    intro acc _ b hb
    simp only [generate_batches_go] at hb
    split at hb <;> simp at hb
  | cons x rest ih =>
    intro acc hacc b hb
    simp only [generate_batches_go] at hb
    by_cases h : (acc ++ [x]).length = k
    · rw [if_pos h] at hb
      rcases hr : generate_batches_go k ([] : List α) rest with _ | ⟨y, l⟩
      · rw [hr] at hb; simp at hb
      · rw [hr, List.dropLast_cons_of_ne_nil (by simp)] at hb
        rcases List.mem_cons.mp hb with rfl | hb
        · exact h
        · have hk : 0 < k := by
            have := h; simp only [List.length_append, List.length_cons] at this
            omega
          exact ih [] (by simpa using hk) b (by rw [hr]; exact hb)
    · rw [if_neg h] at hb
      have hlt : (acc ++ [x]).length < k := by
        simp only [List.length_append, List.length_singleton] at h ⊢
        omega
      exact ih (acc ++ [x]) hlt b hb

/-- Every emitted batch has length at most `batch_size`, provided the
accumulator is still below `batch_size`. -/
theorem generate_batches_go_le (k : Nat) (xs : List α) :
    ∀ acc, acc.length < k → ∀ b ∈ generate_batches_go k acc xs, b.length ≤ k := by
  induction xs with
  | nil =>
    intro acc hacc b hb
    simp only [generate_batches_go] at hb
    split at hb
    · simp at hb
    · rcases List.mem_singleton.mp hb with rfl
      omega
  | cons x rest ih =>
    intro acc hacc b hb
    simp only [generate_batches_go] at hb
    by_cases h : (acc ++ [x]).length = k
    · rw [if_pos h] at hb
      rcases List.mem_cons.mp hb with rfl | hb
      · omega
      · have hk : 0 < k := by
          have := h; simp only [List.length_append, List.length_cons] at this
          omega
        exact ih [] (by simpa using hk) b hb
    · rw [if_neg h] at hb
      have hlt : (acc ++ [x]).length < k := by
        simp only [List.length_append, List.length_singleton] at h ⊢
        omega
      exact ih (acc ++ [x]) hlt b hb

/-- No emitted batch is ever empty, for any accumulator state and any
`batch_size` (including 0). -/
theorem generate_batches_go_ne_nil (k : Nat) (xs : List α) :
    ∀ acc, ∀ b ∈ generate_batches_go k acc xs, b ≠ [] := by
  induction xs with
  | nil =>
    intro acc b hb
    simp only [generate_batches_go] at hb
    split at hb
    · simp at hb
    · rcases List.mem_singleton.mp hb with rfl
      rename_i hne
      simpa [List.isEmpty_iff] using hne
  | cons x rest ih =>
    intro acc b hb
    simp only [generate_batches_go] at hb
    by_cases h : (acc ++ [x]).length = k
    · rw [if_pos h] at hb
      rcases List.mem_cons.mp hb with rfl | hb
      · simp
      · exact ih [] b hb
    · rw [if_neg h] at hb
      exact ih (acc ++ [x]) b hb

/-! ## Health/Readiness gate

`spawn_server` polls in a loop: attempt `socket.create_connection` (success
returns the process), and on `socket.timeout`/`ConnectionRefusedError` check
`process.poll()`; a non-`None` return code raises
`RuntimeError(f"launcher exited unexpectedly with code {retcode}")`.

The loop is driven by external events, modelled as a finite trace of polling
iterations: each step carries (connection attempt succeeded?, `process.poll()`
result at that step). The result is `none` while the trace runs out with the
loop still retrying, `some (.ok ())` when a connection succeeds (worker
ready), and `some (.error c)` for the fatal startup error with exit code `c`. -/

/-- Model of the polling loop of `spawn_server`, over a trace of per-iteration
observations. -/
def spawn_server : List (Bool × Option ℤ) → Option (Except ℤ Unit)
  | [] => none
  | (conn, ret) :: rest =>
    if conn then some (.ok ())
    else
      match ret with
      | some code => some (.error code)
      | none => spawn_server rest

/-- Polling steps in which the connection fails and the process is still alive
leave the gate retrying. -/
theorem spawn_server_quiet (pre : List (Bool × Option ℤ))
    (hq : ∀ p ∈ pre, p.1 = false ∧ p.2 = none) (rest : List (Bool × Option ℤ)) :
    spawn_server (pre ++ rest) = spawn_server rest := by
  induction pre with
  | nil => rfl
  | cons p pre ih =>
    obtain ⟨h1, h2⟩ := hq p (List.mem_cons_self p pre)
    obtain ⟨conn, ret⟩ := p
    simp only at h1 h2
    subst h1 h2
    simp only [List.cons_append, spawn_server, if_neg Bool.false_ne_true]
    exact ih (fun q hq' => hq q (List.mem_cons_of_mem _ hq'))

/-! ## Worker pool client: ordered dispatch

Modelled from the spec: the ordered dispatch operation is provided in the
source by the library primitive `model.embed.map(materialized_batchs,
order_outputs=True)` (an external collaborator, not part of this repository).
Per §4.4 of the spec it tags each completed request with its original batch
index and reassembles results in index order before yielding, for whatever
order the requests complete in. `order` below is the completion order of the
individual requests (a permutation of the batch indices), and `f` is the
per-batch work a worker performs (producing an `EmbeddingResult`). -/

/-- Completed requests in completion order, each tagged with its original
batch index. -/
def complete_requests (f : β → α) (batches : List β) (order : List Nat) :
    List (Nat × α) :=
  order.filterMap (fun i => (batches[i]?).map (fun b => (i, f b)))

/-- Reorder buffer: drain the tagged completions in index order. -/
def reassemble (n : Nat) (tagged : List (Nat × α)) : List α :=
  (List.range n).filterMap
    (fun i => (tagged.find? (fun p => p.1 == i)).map Prod.snd)

/-- Ordered dispatch: results are yielded in submission order regardless of
completion order. -/
def dispatch_ordered (f : β → α) (batches : List β) (order : List Nat) :
    List α :=
  reassemble batches.length (complete_requests f batches order)

/-- Draining `List.range l.length` through a function that agrees with
indexing into `l` recovers `l.map f`. -/
theorem range_filterMap_eq_map (l : List γ) (g : Nat → Option δ) (f : γ → δ)
    (hg : ∀ i, i < l.length → g i = (l[i]?).map f) :
    (List.range l.length).filterMap g = l.map f := by
  induction l generalizing g with
  | nil => rfl
  | cons c l ih =>
    rw [List.length_cons, List.range_succ_eq_map, List.filterMap_cons,
      hg 0 (Nat.succ_pos _)]
    simp only [List.getElem?_cons_zero, Option.map_some']
    rw [List.filterMap_map, List.map_cons]
    congr 1
    refine ih (g ∘ Nat.succ) (fun i hi => ?_)
    have h := hg (i + 1) (Nat.succ_lt_succ hi)
    simpa using h

/-- Members of the tagged completion list are exactly index/value pairs of
completed batches. -/
theorem complete_requests_mem {f : β → α} {batches : List β} {order : List Nat}
    {p : Nat × α} (hp : p ∈ complete_requests f batches order) :
    ∃ b, batches[p.1]? = some b ∧ p.2 = f b := by
  rw [complete_requests, List.mem_filterMap] at hp
  obtain ⟨j, _, hj⟩ := hp
  rw [Option.map_eq_some'] at hj
  obtain ⟨b, hb, hbp⟩ := hj
  subst hbp
  exact ⟨b, hb, rfl⟩

/-- Looking up index `i` in the reorder buffer yields exactly the result of
batch `i`, whenever every request completed exactly once. -/
theorem complete_requests_find (f : β → α) (batches : List β) (order : List Nat)
    (hperm : order.Perm (List.range batches.length)) (i : Nat)
    (hi : i < batches.length) :
    (complete_requests f batches order).find? (fun p => p.1 == i) =
      some (i, f batches[i]) := by
  have hmem_order : i ∈ order := hperm.mem_iff.mpr (List.mem_range.mpr hi)
  have hget : batches[i]? = some batches[i] := List.getElem?_eq_getElem hi
  have hmem : (i, f batches[i]) ∈ complete_requests f batches order := by
    rw [complete_requests, List.mem_filterMap]
    exact ⟨i, hmem_order, by rw [hget]; rfl⟩
  have hsome : ((complete_requests f batches order).find?
      (fun p => p.1 == i)).isSome :=
    List.find?_isSome.mpr ⟨(i, f batches[i]), hmem, by simp⟩
  obtain ⟨q, hq⟩ := Option.isSome_iff_exists.mp hsome
  have hkey : q.1 = i := by
    have := List.find?_some hq
    simpa using this
  obtain ⟨b, hb, hqb⟩ := complete_requests_mem (List.mem_of_find?_eq_some hq)
  rw [hkey, hget] at hb
  injection hb with hb
  rw [hq]
  obtain ⟨q1, q2⟩ := q
  simp only at hkey hqb
  rw [hkey, hqb, ← hb]

/-- Ordered dispatch over any completion permutation is plain `map`. -/
theorem dispatch_ordered_eq_map (f : β → α) (batches : List β)
    (order : List Nat) (hperm : order.Perm (List.range batches.length)) :
    dispatch_ordered f batches order = batches.map f := by
  rw [dispatch_ordered, reassemble]
  apply range_filterMap_eq_map
  intro i hi
  rw [complete_requests_find f batches order hperm i hi,
    List.getElem?_eq_getElem hi]
  rfl

/-! ## Throughput aggregation

`embed_dataset` derives, after the dispatch loop:

    duration = end - start
    characters_per_second = int(counter / duration)
    extrapolated_duration = int(duration / down_scale)
    extrapolated_duration_fmt = str(datetime.timedelta(seconds=extrapolated_duration))
    extrapolated_duration_tps_fmt = str(
        datetime.timedelta(seconds=dataset_chars / characters_per_second))

and returns them in a flat dict. `format_timedelta` models CPython's
`str(datetime.timedelta(seconds=q))`: seconds are normalized to whole
microseconds (round half to even), split by floor division into days /
seconds / microseconds, and printed as `[D day(s), ]H:MM:SS[.UUUUUU]`. -/

theorem ratFloor_eq_floor (q : ℚ) : ratFloor q = ⌊q⌋ := Rat.floor_def.symm

theorem pyInt_of_nonneg {q : ℚ} (h : 0 ≤ q) : pyInt q = ⌊q⌋ := by
  rw [pyInt, if_pos h, ratFloor_eq_floor]

/-- Round to the nearest integer, ties to even, as CPython rounds a float
seconds value to whole microseconds when constructing a `timedelta`. -/
def roundHalfEven (q : ℚ) : ℤ :=
  if q - ratFloor q < 1/2 then ratFloor q
  else if (1 : ℚ)/2 < q - ratFloor q then ratFloor q + 1
  else if ratFloor q % 2 = 0 then ratFloor q else ratFloor q + 1

/-- Value of `"%0Nd"`: decimal digits of `n` left-padded with zeros to width
`w`. -/
def padZeros (w : Nat) (n : Nat) : String :=
  String.mk (List.replicate (w - (toString n).length) '0') ++ toString n

/-- Model of `str(datetime.timedelta(seconds=q))` from the Python standard
library. -/
def format_timedelta (q : ℚ) : String :=
  let total_us : ℤ := roundHalfEven (q * 1000000)
  let days : ℤ := Int.fdiv total_us 86400000000
  let rem : Nat := (total_us - days * 86400000000).toNat
  let secs : Nat := rem / 1000000
  let us : Nat := rem % 1000000
  let base : String :=
    toString (secs / 3600) ++ ":" ++ padZeros 2 (secs / 60 % 60) ++ ":" ++
      padZeros 2 (secs % 60)
  let withUs : String := if us = 0 then base else base ++ "." ++ padZeros 6 us
  if days = 0 then withUs
  else if days = 1 ∨ days = -1 then toString days ++ " day, " ++ withUs
  else toString days ++ " days, " ++ withUs

/-- Values stored in the benchmark dict: Python floats (`q`), ints (`z`, `n`)
and strings (`s`). -/
inductive StatValue where
  | q (x : ℚ)
  | z (x : ℤ)
  | n (x : Nat)
  | s (x : String)
  deriving DecidableEq, Repr

/-- Dict literal returned by `embed_dataset`, in source order. -/
def run_statistics (down_scale duration : ℚ) (cps ed : ℤ)
    (fmt tps_fmt : String) : List (String × StatValue) :=
  [("downscale", .q down_scale),
   ("n_gpu", .n N_GPU),
   ("duration", .q duration),
   ("characters_per_second", .z cps),
   ("extrapolated_duration", .z ed),
   ("extrapolated_duration_fmt", .s fmt),
   ("extrapolated_duration_tps_fmt", .s tps_fmt)]

/-- Throughput statistics lines of `embed_dataset`, as a pure function of
(total characters, wall-clock duration, down_scale, full-corpus character
count): characters/second, extrapolated duration, and the two formatted
strings.  Divisions raise `ZeroDivisionError` exactly where Python's do. -/
def throughput_stats (counter duration down_scale full_chars : ℚ) :
    Except PyError (ℤ × ℤ × String × String) :=
  match pyDiv counter duration with
  | .error e => .error e
  | .ok cps_q =>
    match pyDiv duration down_scale with
    | .error e => .error e
    | .ok ed_q =>
      match pyDiv full_chars ((pyInt cps_q : ℤ) : ℚ) with
      | .error e => .error e
      | .ok tps_q =>
        .ok (pyInt cps_q, pyInt ed_q, format_timedelta ((pyInt ed_q : ℤ) : ℚ),
          format_timedelta tps_q)

/-- Characters accumulated by the dispatch loop (`counter`): the pipeline
chunks the selected subset, batches it with `BATCH_SIZE`, and sums each
batch's `n_chars`. -/
def dispatch_counter (texts : List (List Char)) (sample : Nat) : Nat :=
  ((generate_batches (generate_chunks_from_dataset (texts.take sample) 400)
      BATCH_SIZE).map (fun b => (b.map List.length).sum)).sum

/-- Model of `embed_dataset(down_scale)`. `texts` are the dataset's record
texts and `duration` the measured wall-clock time of the dispatch loop (both
external inputs). The first component records whether the dispatch loop was
reached: `dataset["train"].select(range(sample_size))` raises before any
dispatch when `sample_size` exceeds the dataset size (modelled as
`.indexError`), while `range` of a non-positive number is simply empty. The
function performs no validation of `down_scale`. -/
def embed_dataset (texts : List (List Char)) (duration down_scale : ℚ) :
    Bool × Except PyError (List (String × StatValue)) :=
  if (texts.length : ℤ) < pyInt (texts.length * down_scale) then
    (false, .error .indexError)
  else
    match throughput_stats
        (dispatch_counter texts (pyInt (texts.length * down_scale)).toNat)
        duration down_scale (dataset_chars : ℚ) with
    | .error e => (true, .error e)
    | .ok (cps, ed, fmt, tps_fmt) =>
      (true, .ok (run_statistics down_scale duration cps ed fmt tps_fmt))

/-! ### Aggregator lemmas -/

/-- Inversion: a successful `throughput_stats` determines every component. -/
theorem throughput_stats_ok {counter duration down_scale full_chars : ℚ}
    {cps ed : ℤ} {f1 f2 : String}
    (h : throughput_stats counter duration down_scale full_chars =
      .ok (cps, ed, f1, f2)) :
    duration ≠ 0 ∧ down_scale ≠ 0 ∧
    cps = pyInt (counter / duration) ∧ ed = pyInt (duration / down_scale) ∧
    f1 = format_timedelta (ed : ℚ) ∧ (cps : ℚ) ≠ 0 ∧
    f2 = format_timedelta (full_chars / (cps : ℚ)) := by
  by_cases hdur : duration = 0
  · simp only [throughput_stats, pyDiv, if_pos hdur] at h
    exact Except.noConfusion h
  · simp only [throughput_stats, pyDiv, if_neg hdur] at h
    by_cases hds : down_scale = 0
    · simp only [if_pos hds] at h
      exact Except.noConfusion h
    · simp only [if_neg hds] at h
      by_cases hcps : ((pyInt (counter / duration) : ℤ) : ℚ) = 0
      · simp only [if_pos hcps] at h
        exact Except.noConfusion h
      · simp only [if_neg hcps] at h
        injection h with h
        injection h with h1 h
        injection h with h2 h
        injection h with h3 h4
        subst h1
        subst h2
        subst h3
        subst h4
        exact ⟨hdur, hds, rfl, rfl, rfl, hcps, rfl⟩

/-- Inversion: a successful `embed_dataset` run reached dispatch and reports
the `run_statistics` of a successful `throughput_stats`. -/
theorem embed_dataset_ok {texts : List (List Char)} {duration down_scale : ℚ}
    {b : Bool} {fields : List (String × StatValue)}
    (h : embed_dataset texts duration down_scale = (b, .ok fields)) :
    b = true ∧ ∃ cps ed f1 f2,
      throughput_stats
        (dispatch_counter texts (pyInt (texts.length * down_scale)).toNat)
        duration down_scale (dataset_chars : ℚ) = .ok (cps, ed, f1, f2) ∧
      fields = run_statistics down_scale duration cps ed f1 f2 := by
  unfold embed_dataset at h
  split at h
  · injection h with hb hf
    exact absurd hf (by simp)
  · split at h
    · injection h with hb hf
      exact absurd hf (by simp)
    · rename_i cps ed f1 f2 hts
      injection h with hb hf
      injection hf with hf
      exact ⟨hb.symm, cps, ed, f1, f2, hts, hf.symm⟩

/-! ## Claims -/

/-- Claim C1: for every finite sequence of batches submitted to the ordered dispatch
operation, the number of results equals the number of batches submitted, and
`result[i]` corresponds to `batches[i]` for every index `i`, regardless of the
order in which the individual requests complete (`order` is any permutation of
the batch indices, `f` the per-batch embedding work). -/
theorem dispatch_ordered_preserves_order {α β : Type} (f : β → α)
    (batches : List β) (order : List Nat)
    (hperm : order.Perm (List.range batches.length)) :
    (dispatch_ordered f batches order).length = batches.length ∧
    ∀ i (hi : i < batches.length),
      (dispatch_ordered f batches order)[i]? = some (f batches[i]) := by
  rw [dispatch_ordered_eq_map f batches order hperm]
  refine ⟨List.length_map batches f, fun i hi => ?_⟩
  rw [List.getElem?_map, List.getElem?_eq_getElem hi]
  rfl

theorem dispatch_ordered_preserves_order_witness :
    ([2, 0, 1] : List Nat).Perm (List.range ([3, 1, 2] : List Nat).length) ∧
    ((dispatch_ordered (fun n : Nat => n * 2) [3, 1, 2] [2, 0, 1]).length =
        ([3, 1, 2] : List Nat).length ∧
      ∀ i (hi : i < ([3, 1, 2] : List Nat).length),
        (dispatch_ordered (fun n : Nat => n * 2) [3, 1, 2] [2, 0, 1])[i]? =
          some ((fun n : Nat => n * 2) ([3, 1, 2] : List Nat)[i])) :=
  ⟨by decide,
   dispatch_ordered_preserves_order (fun n : Nat => n * 2) [3, 1, 2] [2, 0, 1]
     (by decide)⟩

/-- Claim C2: for every record text `s` and every `chunk_size > 0`, concatenating in
order all chunks the Chunker emits for that record reproduces `s` exactly;
each chunk has length at most `chunk_size`, every chunk except possibly the
last has length exactly `chunk_size`, and a zero-length text yields zero
chunks. -/
theorem chunker_round_trip (s : List Char) (k : Nat) (hk : 0 < k) :
    (generate_chunks_from_dataset [s] k).flatten = s ∧
    (∀ c ∈ generate_chunks_from_dataset [s] k, c.length ≤ k) ∧
    (∀ c ∈ (generate_chunks_from_dataset [s] k).dropLast, c.length = k) ∧
    (s = [] → generate_chunks_from_dataset [s] k = []) := by
  have hsingle : generate_chunks_from_dataset [s] k = chunk_text s k := by
    simp [generate_chunks_from_dataset]
  rw [hsingle]
  exact ⟨chunk_text_flatten s k hk.ne', chunk_text_le s k, chunk_text_full s k,
    fun hs => hs ▸ chunk_text_nil k⟩

theorem chunker_round_trip_witness :
    0 < 2 ∧
    ((generate_chunks_from_dataset [['a', 'b', 'c', 'd', 'e']] 2).flatten =
        ['a', 'b', 'c', 'd', 'e'] ∧
      (∀ c ∈ generate_chunks_from_dataset [['a', 'b', 'c', 'd', 'e']] 2,
        c.length ≤ 2) ∧
      (∀ c ∈ (generate_chunks_from_dataset [['a', 'b', 'c', 'd', 'e']] 2).dropLast,
        c.length = 2) ∧
      (['a', 'b', 'c', 'd', 'e'] = ([] : List Char) →
        generate_chunks_from_dataset [['a', 'b', 'c', 'd', 'e']] 2 = [])) :=
  ⟨by decide, chunker_round_trip ['a', 'b', 'c', 'd', 'e'] 2 (by decide)⟩

/-- Claim C3: for every finite sequence of chunks and every `batch_size > 0`, the
emitted batches flatten back to the input (so the total chunk count is
preserved and chunk order inside each batch equals input order); every batch
except possibly the last has exactly `batch_size` chunks, no batch is empty,
and an empty input yields no batches. -/
theorem batcher_completeness {α : Type} (xs : List α) (k : Nat) (hk : 0 < k) :
    (generate_batches xs k).flatten = xs ∧
    (∀ b ∈ (generate_batches xs k).dropLast, b.length = k) ∧
    (∀ b ∈ generate_batches xs k, b ≠ []) ∧
    (xs = [] → generate_batches xs k = []) := by
  refine ⟨?_, ?_, ?_, ?_⟩
  · simpa using generate_batches_go_flatten k xs []
  · exact generate_batches_go_dropLast k xs [] (by simpa using hk)
  · exact generate_batches_go_ne_nil k xs []
  · rintro rfl; rfl

theorem batcher_completeness_witness :
    0 < 2 ∧
    ((generate_batches [1, 2, 3] 2).flatten = [1, 2, 3] ∧
      (∀ b ∈ (generate_batches [1, 2, 3] 2).dropLast, b.length = 2) ∧
      (∀ b ∈ generate_batches [1, 2, 3] 2, b ≠ []) ∧
      (([1, 2, 3] : List Nat) = [] → generate_batches [1, 2, 3] 2 = [])) :=
  ⟨by decide, batcher_completeness [1, 2, 3] 2 (by decide)⟩

/-- Claim C9: for every record text `s` and every `chunk_size > 0`, the Chunker
emits exactly `⌈s.length / chunk_size⌉` chunks for that record, and every
emitted chunk is non-empty. -/
theorem chunker_count_nonempty (s : List Char) (k : Nat) (hk : 0 < k) :
    (generate_chunks_from_dataset [s] k).length = s.length ⌈/⌉ k ∧
    ∀ c ∈ generate_chunks_from_dataset [s] k, c ≠ [] := by
  have hsingle : generate_chunks_from_dataset [s] k = chunk_text s k := by
    simp [generate_chunks_from_dataset]
  rw [hsingle]
  refine ⟨?_, chunk_text_ne_nil s k⟩
  rw [Nat.ceilDiv_eq_add_pred_div, chunk_text_count s k hk.ne']

theorem chunker_count_nonempty_witness :
    0 < 2 ∧
    ((generate_chunks_from_dataset [['a', 'b', 'c']] 2).length = 3 ⌈/⌉ 2 ∧
      ∀ c ∈ generate_chunks_from_dataset [['a', 'b', 'c']] 2, c ≠ []) :=
  ⟨by decide, chunker_count_nonempty ['a', 'b', 'c'] 2 (by decide)⟩

/-- Claim C6: if the worker process exits with code `c` before any readiness
connection succeeds, the readiness gate fails with the fatal startup error
carrying `c` instead of retrying forever; if a connection succeeds first, the
gate marks the worker ready and returns. `pre` is any prefix of polling
iterations in which the connection fails and the process is still alive. -/
theorem readiness_gate_fatal_exit (pre rest : List (Bool × Option ℤ)) (c : ℤ)
    (r : Option ℤ) (hq : ∀ p ∈ pre, p.1 = false ∧ p.2 = none) :
    spawn_server (pre ++ (false, some c) :: rest) = some (.error c) ∧
    spawn_server (pre ++ (true, r) :: rest) = some (.ok ()) := by
  rw [spawn_server_quiet pre hq, spawn_server_quiet pre hq]
  exact ⟨rfl, rfl⟩

theorem readiness_gate_fatal_exit_witness :
    (∀ p ∈ [((false : Bool), (none : Option ℤ))], p.1 = false ∧ p.2 = none) ∧
    (spawn_server ([(false, none)] ++ (false, some 1) :: []) =
        some (.error 1) ∧
      spawn_server ([(false, none)] ++ (true, none) :: []) = some (.ok ())) :=
  ⟨by decide, readiness_gate_fatal_exit [(false, none)] [] 1 none (by decide)⟩

/-- Claim C7 counterexample: the Batcher's `batch_size` parameter defaults to 50,
not 128; with no batch size supplied, 128 input chunks yield batches of sizes
50, 50, 28, so a non-final batch has length 50 ≠ 128. -/
theorem batcher_default_cex :
    (generate_batches (List.replicate 128 (0 : Nat))).map List.length =
      [50, 50, 28] ∧
    ¬(∀ b ∈ (generate_batches (List.replicate 128 (0 : Nat))).dropLast,
        b.length = 128) := by
  decide

/-- Claim C7 (amended): the Batcher's `batch_size` parameter defaults to 50, so that
when no batch size is supplied every emitted batch has length at most 50 and
every batch except possibly the last has length exactly 50. -/
theorem batcher_default_is_fifty {α : Type} (xs : List α) :
    (∀ b ∈ generate_batches xs, b.length ≤ 50) ∧
    (∀ b ∈ (generate_batches xs).dropLast, b.length = 50) :=
  ⟨generate_batches_go_le 50 xs [] (by simp),
   generate_batches_go_dropLast 50 xs [] (by simp)⟩

/-- Claim C4 counterexample: `embed_dataset` never raises an invalid-scale error.
For `down_scale = 0` (two-character record, duration 10s) the dispatch loop is
reached (first component `true`) and the run fails afterwards with a
`ZeroDivisionError` while computing `extrapolated_duration`; for
`down_scale = 1.5` over two records it fails before dispatch with an
out-of-range dataset selection, not an invalid-scale rejection. -/
theorem invalid_scale_not_rejected :
    embed_dataset [['a', 'b']] 10 0 = (true, .error .zeroDivision) ∧
    embed_dataset [['a'], ['b']] 10 (3/2) = (false, .error .indexError) := by
  constructor
  · with_unfolding_all rfl
  · with_unfolding_all rfl

/-- Claim C4 (amended): the run performs no validation of `down_scale`. For
`down_scale = 0` the dispatch loop runs (over an empty batch list) and the run
then fails with a `ZeroDivisionError` while computing `extrapolated_duration`,
after dispatch; for any `down_scale` whose computed sample size exceeds the
dataset size (such as 1.5 on a multi-record dataset), the run fails before
dispatch with an out-of-range dataset selection error — in neither case with
an invalid-scale error. -/
theorem scale_misuse_behavior (texts : List (List Char)) (duration : ℚ)
    (hdur : duration ≠ 0) :
    embed_dataset texts duration 0 = (true, .error .zeroDivision) ∧
    ∀ down_scale : ℚ,
      (texts.length : ℤ) < pyInt ((texts.length : ℚ) * down_scale) →
      embed_dataset texts duration down_scale = (false, .error .indexError) := by
  constructor
  · have h0 : pyInt ((texts.length : ℚ) * 0) = 0 := by
      norm_num [pyInt, ratFloor]
    unfold embed_dataset
    rw [h0, if_neg (by omega)]
    simp only [throughput_stats, pyDiv, if_neg hdur, if_pos rfl]
    simp
  · intro ds hds
    unfold embed_dataset
    rw [if_pos hds]

theorem scale_misuse_behavior_witness :
    (10 : ℚ) ≠ 0 ∧
    embed_dataset [['a'], ['b']] 10 0 = (true, .error .zeroDivision) ∧
    (((([['a'], ['b']] : List (List Char)).length : ℤ) <
        pyInt ((([['a'], ['b']] : List (List Char)).length : ℚ) * (3/2))) ∧
      embed_dataset [['a'], ['b']] 10 (3/2) = (false, .error .indexError)) :=
  ⟨by norm_num, (scale_misuse_behavior [['a'], ['b']] 10 (by norm_num)).1,
   by with_unfolding_all decide,
   (scale_misuse_behavior [['a'], ['b']] 10 (by norm_num)).2 (3/2)
     (by with_unfolding_all decide)⟩

/-- Claim C5 counterexample: the aggregator does not compute `extrapolated_duration`
as the exact quotient `total_duration / down_scale`: at `total_duration = 1`,
`down_scale = 2/3` it returns 1, while the exact quotient is `3/2`. -/
theorem aggregator_exact_quotient_cex :
    throughput_stats 100 1 (2/3) 100 = .ok (100, 1, "0:00:01", "0:00:01") ∧
    ((1 : ℚ) ≠ 1 / (2/3)) := by
  constructor
  · with_unfolding_all rfl
  · with_unfolding_all decide

/-- Claim C5 (amended): the Throughput Aggregator computes `characters_per_second`
as `⌊total_chars / total_duration⌋` and `extrapolated_duration` as the integer
truncation of `total_duration / down_scale`; in particular, for
`total_chars = 50000`, `total_duration = 10`, `down_scale = 0.001`,
`full_corpus_char_count = 50000000` it yields 5000 chars/sec, an extrapolated
duration of 10000 s, and formats `50000000/5000 = 10000` s as `"2:46:40"`. -/
theorem aggregator_stats (counter duration down_scale full_chars : ℚ)
    (cps ed : ℤ) (f1 f2 : String) (hc : 0 ≤ counter) (hdur : 0 < duration)
    (hds : 0 < down_scale)
    (h : throughput_stats counter duration down_scale full_chars =
      .ok (cps, ed, f1, f2)) :
    (cps = ⌊counter / duration⌋ ∧ ed = ⌊duration / down_scale⌋) ∧
    throughput_stats 50000 10 (1/1000) 50000000 =
      .ok (5000, 10000, "2:46:40", "2:46:40") := by
  obtain ⟨-, -, hcps, hed, -, -, -⟩ := throughput_stats_ok h
  refine ⟨⟨?_, ?_⟩, by with_unfolding_all rfl⟩
  · rw [hcps, pyInt_of_nonneg (div_nonneg hc hdur.le)]
  · rw [hed, pyInt_of_nonneg (div_nonneg hdur.le hds.le)]

theorem aggregator_stats_witness :
    (0 : ℚ) ≤ 50000 ∧ (0 : ℚ) < 10 ∧ (0 : ℚ) < 1/1000 ∧
    (((5000 : ℤ) = ⌊(50000 : ℚ) / 10⌋ ∧
        (10000 : ℤ) = ⌊(10 : ℚ) / (1/1000)⌋) ∧
      throughput_stats 50000 10 (1/1000) 50000000 =
        .ok (5000, 10000, "2:46:40", "2:46:40")) :=
  ⟨by norm_num, by norm_num, by norm_num,
   aggregator_stats 50000 10 (1/1000) 50000000 5000 10000 "2:46:40" "2:46:40"
     (by norm_num) (by norm_num) (by norm_num) (by with_unfolding_all rfl)⟩

/-- Claim C8 counterexample: the run report's first field is named `downscale`, not
`down_scale` as the claim states. -/
theorem run_report_key_cex :
    "down_scale" ∉ (run_statistics 1 1 1 1 "" "").map Prod.fst ∧
    "downscale" ∈ (run_statistics 1 1 1 1 "" "").map Prod.fst := by
  decide

/-- Claim C8 (amended): the run report produced by a successful `embed_dataset` run
is a flat field/value list containing exactly the fields named `downscale`,
`n_gpu`, `duration`, `characters_per_second`, `extrapolated_duration`,
`extrapolated_duration_fmt` and `extrapolated_duration_tps_fmt`, in that
order. -/
theorem run_report_fields (texts : List (List Char)) (duration down_scale : ℚ)
    (b : Bool) (fields : List (String × StatValue))
    (h : embed_dataset texts duration down_scale = (b, .ok fields)) :
    fields.map Prod.fst =
      ["downscale", "n_gpu", "duration", "characters_per_second",
       "extrapolated_duration", "extrapolated_duration_fmt",
       "extrapolated_duration_tps_fmt"] := by
  obtain ⟨-, cps, ed, f1, f2, -, rfl⟩ := embed_dataset_ok h
  rfl

theorem run_report_fields_witness :
    embed_dataset [['a', 'b']] 1 1 =
      (true, .ok (run_statistics 1 1 2 1 "0:00:01"
        "113197 days, 13:31:18.500000")) ∧
    (run_statistics 1 1 2 1 "0:00:01"
        "113197 days, 13:31:18.500000").map Prod.fst =
      ["downscale", "n_gpu", "duration", "characters_per_second",
       "extrapolated_duration", "extrapolated_duration_fmt",
       "extrapolated_duration_tps_fmt"] :=
  ⟨by with_unfolding_all rfl,
   run_report_fields [['a', 'b']] 1 1 true _ (by with_unfolding_all rfl)⟩

/-- Claim C10: the reported `extrapolated_duration` is not the exact quotient
`duration / down_scale` but its truncation to an integer number of seconds
(`int(duration / down_scale)`, floor for positive values — e.g. `3/2`
truncates to 1), while the reported `duration` field itself remains the
untruncated rational value. -/
theorem extrapolated_duration_truncated
    (counter duration down_scale full_chars : ℚ) (cps ed : ℤ)
    (f1 f2 : String)
    (h : throughput_stats counter duration down_scale full_chars =
      .ok (cps, ed, f1, f2)) :
    ed = pyInt (duration / down_scale) ∧
    ("extrapolated_duration", StatValue.z (pyInt (duration / down_scale))) ∈
      run_statistics down_scale duration cps ed f1 f2 ∧
    ("duration", StatValue.q duration) ∈
      run_statistics down_scale duration cps ed f1 f2 ∧
    pyInt ((3 : ℚ) / 2) = 1 ∧ ((3 : ℚ) / 2 ≠ ((1 : ℤ) : ℚ)) := by
  obtain ⟨-, -, -, hed, -, -, -⟩ := throughput_stats_ok h
  subst hed
  refine ⟨rfl, by simp [run_statistics], by simp [run_statistics], ?_, ?_⟩
  · with_unfolding_all decide
  · with_unfolding_all decide

theorem extrapolated_duration_truncated_witness :
    (1 : ℤ) = pyInt ((1 : ℚ) / (2/3)) ∧
    ("extrapolated_duration", StatValue.z (pyInt ((1 : ℚ) / (2/3)))) ∈
      run_statistics (2/3) 1 2 1 "0:00:01" "0:00:02" ∧
    ("duration", StatValue.q 1) ∈
      run_statistics (2/3) 1 2 1 "0:00:01" "0:00:02" ∧
    pyInt ((3 : ℚ) / 2) = 1 ∧ ((3 : ℚ) / 2 ≠ ((1 : ℤ) : ℚ)) :=
  extrapolated_duration_truncated 2 1 (2/3) 4 2 1 "0:00:01" "0:00:02"
    (by with_unfolding_all rfl)

end Wikipedia
